import Mathlib

/-!
Verification of the deferred-chain simulator
(`twisted-deferred/deferred-simulator.py`).

The Python program is embedded shallowly: `Callback.__call__` becomes
`Handler.call`, twisted's result processing (a raised exception or a
returned `Failure` keeps the chain on the failure track, a plain return
moves it to the success track) becomes `toResult`, the `Screen` class
becomes an append-only pixel list with last-write-wins lookup, and the
drawing closures of `make_drawing_deferred` become the explicit state
machine `runStep` / `runFired`.
-/

/-- Python 2 `str.center(w)`: if the string is at least `w` long it is
returned unchanged; otherwise `marg = w - len` spaces are distributed with
`left = marg / 2 + (marg & w & 1)` on the left (CPython's exact rule). -/
def pyCenter (s : String) (w : Nat) : String :=
  if w ≤ s.length then s
  else
    let marg := w - s.length
    let left := marg / 2 + (marg &&& w &&& 1)
    String.mk (List.replicate left ' ') ++ s ++ String.mk (List.replicate (marg - left) ' ')

/-- The three styles of `Callback` widgets: `return v`, `fail v`, `passthru`
(`Callback.__init__`'s `style`/`value`). -/
inductive Handler where
  | ret (v : String)
  | fail (v : String)
  | passthru
deriving DecidableEq

/-- `Callback.__repr__`: `passthru`, or `style + ' ' + value`. -/
def Handler.reprStr : Handler → String
  | .ret v => "return " ++ v
  | .fail v => "fail " ++ v
  | .passthru => "passthru"

/-- `Callback.min_width = len(repr(self)) + 4`. -/
def Handler.min_width (h : Handler) : Nat := h.reprStr.length + 4

/-- A value flowing through the chain as Python sees it: a plain string or
a twisted `Failure` wrapping `Exception(msg)`. -/
inductive PyRes where
  | str (s : String)
  | failObj (msg : String)
deriving DecidableEq

/-- `Callback.__call__`: `return` style returns the stored value, `fail`
style raises `Exception(value)` (modelled as `Except.error`), `passthru`
returns its argument unchanged. -/
def Handler.call : Handler → PyRes → Except String PyRes
  | .ret v, _ => .ok (.str v)
  | .fail v, _ => .error v
  | .passthru, r => .ok r

/-- The deferred's current result together with its track: a plain success
value or a failure carrying a message. -/
inductive Result where
  | success (s : String)
  | failure (msg : String)
deriving DecidableEq

def Result.isFailure : Result → Bool
  | .failure _ => true
  | .success _ => false

/-- View a tracked result as the Python value handed to a callback. -/
def pyOf : Result → PyRes
  | .success s => .str s
  | .failure m => .failObj m

/-- Twisted's processing of a handler's outcome: a raised exception becomes
the Failure track, a returned `Failure` object stays on the Failure track,
and a plain return is the Success track. -/
def toResult : Except String PyRes → Result
  | .error m => .failure m
  | .ok (.str s) => .success s
  | .ok (.failObj m) => .failure m

/-- `addCallbacks` slot selection: the errback fires iff the current result
is a `Failure`. -/
def selectHandler (p : Handler × Handler) (r : Result) : Handler :=
  if r.isFailure then p.2 else p.1

/-- One stage of the chain: select the handler for the current track, apply
it, and let twisted re-tag the outcome. -/
def fireStep (p : Handler × Handler) (r : Result) : Handler × Result :=
  let h := selectHandler p r
  (h, toResult (h.call (pyOf r)))

/-- The execution trace: the handler fired at each stage together with the
result it produced. -/
def runTrace (pairs : List (Handler × Handler)) (r : Result) : List (Handler × Result) :=
  match pairs with
  | [] => []
  | p :: rest => (fireStep p r) :: runTrace rest (fireStep p r).2

/-- The final result after the whole chain. -/
def runChain (pairs : List (Handler × Handler)) (r : Result) : Result :=
  pairs.foldl (fun r p => (fireStep p r).2) r

/-- The text `draw_value` renders for a result: `Exception(msg)` for a
failure, the value itself for a success. -/
def valueText : Result → String
  | .failure m => "Exception(" ++ m ++ ")"
  | .success v => v

/-- The spec's name for the failure of `Deferred.__init__`'s
`assert pairs` on an empty pair list. -/
inductive ChainError where
  | invalidChain
deriving DecidableEq

/-- The `Deferred` widget: the pair list and its derived layout metrics. -/
structure Deferred where
  pairs : List (Handler × Handler)
  callback_width : Nat
  width : Nat
  height : Nat
deriving DecidableEq

/-- `Deferred.__init__`'s `callback_width`: the max of all callbacks' then
all errbacks' `min_width`, starting from 0. -/
def cbWidth (pairs : List (Handler × Handler)) : Nat :=
  let w1 := (pairs.map (fun p => p.1.min_width)).foldl max 0
  (pairs.map (fun p => p.2.min_width)).foldl max w1

/-- `Deferred.__init__`: rejects an empty pair list (`assert pairs`, the
spec's `InvalidChain`), otherwise stores the pairs and computes
`callback_width`, `width = callback_width * 2 + 2` and
`height = 5 * n + 3 * (n - 1)`. -/
def Deferred.make (pairs : List (Handler × Handler)) : Except ChainError Deferred :=
  if pairs.isEmpty then .error .invalidChain
  else
    .ok { pairs := pairs
          callback_width := cbWidth pairs
          width := cbWidth pairs * 2 + 2
          height := 5 * pairs.length + 3 * (pairs.length - 1) }

/-- The ascii screen: `self.pixels` as a write log.  A Python dict assignment
`pixels[x,y] = char` is modelled by appending to the log; lookup takes the
most recent entry, so `get` agrees with the dict. -/
structure Screen where
  pixels : List ((Int × Int) × Char)
deriving DecidableEq

def Screen.empty : Screen := ⟨[]⟩

/-- `Screen.draw_char`: `self.pixels[x,y] = char`. -/
def Screen.draw_char (s : Screen) (x y : Int) (c : Char) : Screen :=
  ⟨s.pixels ++ [((x, y), c)]⟩

/-- `Screen.draw_horiz_line`: `for i in range(width): draw_char(x+i, y, '-')`,
unrolled from the last iteration. -/
def Screen.draw_horiz_line (s : Screen) (x y : Int) : Nat → Screen
  | 0 => s
  | n + 1 => (s.draw_horiz_line x y n).draw_char (x + n) y '-'

/-- The `for i in range(height)` loop of `draw_vert_line`. -/
def vertSeg (s : Screen) (x y : Int) : Nat → Screen
  | 0 => s
  | n + 1 => (vertSeg s x y n).draw_char x (y + n) '|'

/-- `Screen.draw_vert_line`: the `'|'` segment, then if `end_arrow` the
`'\'` at `(x-1, y+height-1)` and `'/'` at `(x+1, y+height-1)`. -/
def Screen.draw_vert_line (s : Screen) (x y : Int) (h : Nat) (end_arrow : Bool) : Screen :=
  let s1 := vertSeg s x y h
  if end_arrow then
    (s1.draw_char (x - 1) (y + h - 1) '\\').draw_char (x + 1) (y + h - 1) '/'
  else s1

/-- The `for i, char in enumerate(text)` loop of `draw_text`. -/
def drawTextList (s : Screen) (x y : Int) : List Char → Screen
  | [] => s
  | c :: cs => drawTextList (s.draw_char x y c) (x + 1) y cs

/-- `Screen.draw_text`: write each character of `text` at consecutive x. -/
def Screen.draw_text (s : Screen) (x y : Int) (t : String) : Screen :=
  drawTextList s x y t.data

/-- Dict lookup `pixels.get((x,y), ...)`: the most recent write wins. -/
def Screen.get (s : Screen) (x y : Int) : Option Char :=
  (s.pixels.reverse.find? (fun p => p.1 == (x, y))).map (fun p => p.2)

/-- `width = max([p[0] + 1 for p in self.pixels] + [0])`. -/
def Screen.widthI (s : Screen) : Int :=
  s.pixels.foldl (fun m p => max m (p.1.1 + 1)) 0

/-- `height = max([p[1] + 1 for p in self.pixels] + [0])`. -/
def Screen.heightI (s : Screen) : Int :=
  s.pixels.foldl (fun m p => max m (p.1.2 + 1)) 0

/-- One rendered cell: `self.pixels.get((x,y), ' ')`. -/
def Screen.cell (s : Screen) (x y : Nat) : Char :=
  (s.get x y).getD ' '

/-- One rendered row of `Screen.__str__`. -/
def Screen.rowChars (s : Screen) (y : Nat) : List Char :=
  (List.range s.widthI.toNat).map (fun x => s.cell x y)

/-- All characters `Screen.__str__` accumulates: each row followed by a
newline. -/
def Screen.strChars (s : Screen) : List Char :=
  ((List.range s.heightI.toNat).map (fun y => s.rowChars y ++ ['\n'])).flatten

/-- `Screen.__str__`. -/
def Screen.str (s : Screen) : String :=
  String.mk s.strChars

/-- The fixed geometry of `make_drawing_deferred`: the deferred's
`callback_width` and the left x of the callback column. -/
structure DrawCfg where
  cw : Nat
  x0 : Int

/-- `errback_left_x = x + callback_width + 2`. -/
def DrawCfg.errback_left (c : DrawCfg) : Int := c.x0 + c.cw + 2

/-- `callback_mid_x = x - 1 + callback_width / 2` (Python floor division). -/
def DrawCfg.callback_mid (c : DrawCfg) : Int := c.x0 - 1 + (c.cw / 2 : Nat)

/-- `errback_mid_x = errback_left_x - 1 + callback_width / 2`. -/
def DrawCfg.errback_mid (c : DrawCfg) : Int := c.errback_left - 1 + (c.cw / 2 : Nat)

/-- `Callback.draw`: top and bottom borders, two side borders, and the
centered `repr` text at row `y + 2`. -/
def Handler.drawBox (h : Handler) (s : Screen) (x y : Int) (w : Nat) : Screen :=
  let s := s.draw_horiz_line x y w
  let s := s.draw_horiz_line x (y + 4) w
  let s := s.draw_vert_line x (y + 1) 3 false
  let s := s.draw_vert_line (x + w - 1) (y + 1) 3 false
  s.draw_text (x + 1) (y + 2) (pyCenter h.reprStr (w - 2))

/-- `draw_connection(x)`: a single arrowed vertical line when the column is
unchanged, otherwise two partial verticals bridged by a horizontal line,
with the arrow on the destination side. -/
def drawConnection (cfg : DrawCfg) (s : Screen) (last_x last_y x : Int) : Screen :=
  if last_x = x then
    s.draw_vert_line (x - 1 + (cfg.cw / 2 : Nat)) (last_y - 3) 3 true
  else if last_x < x then
    ((s.draw_vert_line cfg.callback_mid (last_y - 3) 2 false).draw_vert_line
        cfg.errback_mid (last_y - 2) 2 true).draw_horiz_line (cfg.callback_mid + 1)
      (last_y - 2) (cfg.errback_mid - cfg.callback_mid - 1).toNat
  else
    ((s.draw_vert_line cfg.errback_mid (last_y - 3) 2 false).draw_vert_line
        cfg.callback_mid (last_y - 2) 2 true).draw_horiz_line (cfg.callback_mid + 1)
      (last_y - 2) (cfg.errback_mid - cfg.callback_mid - 1).toNat

/-- `draw_value(res, y)`: failures as `Exception(msg)` centered over
`callback_width + 20` columns starting at `errback_left_x - 10`; plain
values centered over `callback_width` columns at the run's x. -/
def drawValue (cfg : DrawCfg) (s : Screen) (r : Result) (y : Int) : Screen :=
  match r with
  | .failure _ =>
      s.draw_text (cfg.errback_left - 10) y (pyCenter (valueText r) (cfg.cw + 20))
  | .success _ =>
      s.draw_text cfg.x0 y (pyCenter (valueText r) cfg.cw)

/-- The mutable closure state of `make_drawing_deferred` (`DrawState` plus
the value flowing through the twisted deferred). -/
structure RunState where
  screen : Screen
  last_x : Int
  last_y : Int
  res : Result
deriving DecidableEq

/-- One `addCallbacks` stage as wrapped by `wrap_callback`: twisted selects
the slot by the current track, the wrapper draws the handler box at its
column and the connection from the previous stage, records the new cursor,
and applies the handler. -/
def runStep (cfg : DrawCfg) (st : RunState) (p : Handler × Handler) : RunState :=
  let col := if st.res.isFailure then cfg.errback_left else cfg.x0
  let h := selectHandler p st.res
  let s := h.drawBox st.screen col st.last_y cfg.cw
  let s := drawConnection cfg s st.last_x st.last_y col
  { screen := s
    last_x := col
    last_y := st.last_y + 8
    res := toResult (h.call (pyOf st.res)) }

/-- `FiredDeferred.draw` via `make_drawing_deferred`: `draw_start`, one
wrapped stage per pair, then `draw_end`. -/
def runFired (cfg : DrawCfg) (s : Screen) (y : Int) (pairs : List (Handler × Handler))
    (start : Result) : Screen :=
  let s := drawValue cfg s start y
  let lx := if start.isFailure then cfg.errback_left else cfg.x0
  let stN := pairs.foldl (runStep cfg) ⟨s, lx, y + 4, start⟩
  let s := drawValue cfg stN.screen stN.res stN.last_y
  drawConnection cfg s stN.last_x stN.last_y
    (if stN.res.isFailure then cfg.errback_left else cfg.x0)

/-- `main`'s first run: `callback.draw(screen, 0, 0, 'initial')`. -/
def screenAfterFirst (d : Deferred) : Screen :=
  runFired ⟨d.callback_width, 0⟩ Screen.empty 0 d.pairs (.success "initial")

/-- `main`'s second run: `errback.draw(screen, d.width + 12, 0, 'initial')`
on the shared screen. -/
def screenAfterBoth (d : Deferred) : Screen :=
  runFired ⟨d.callback_width, (d.width : Int) + 12⟩ (screenAfterFirst d) 0 d.pairs
    (.failure "initial")

/-- The pixel coordinates written by the first run. -/
def run1Keys (d : Deferred) : List (Int × Int) :=
  (screenAfterFirst d).pixels.map Prod.fst

/-- The pixel coordinates written by the second run: the entries the second
run appended to the shared write log. -/
def run2Keys (d : Deferred) : List (Int × Int) :=
  ((screenAfterBoth d).pixels.drop (screenAfterFirst d).pixels.length).map Prod.fst

/-- The whole pipeline of `main` on a validated pair list: build the
deferred, draw both runs on one screen, render it. -/
def simulate (pairs : List (Handler × Handler)) : Except ChainError String :=
  (Deferred.make pairs).map (fun d => (screenAfterBoth d).str)

/-! ## Helper lemmas -/

lemma le_foldl_max {α : Type} [LinearOrder α] (l : List α) (a : α) :
    a ≤ l.foldl max a := by
  induction l generalizing a with
  | nil => exact le_refl a
  | cons b t ih => exact le_trans (le_max_left a b) (ih (max a b))

lemma mem_le_foldl_max {α : Type} [LinearOrder α] :
    ∀ (l : List α) (a : α) {v : α}, v ∈ l → v ≤ l.foldl max a
  | b :: t, a, v, hv => by
    rw [List.foldl_cons]
    rcases List.mem_cons.mp hv with h | h
    · subst h
      exact le_trans (le_max_right a v) (le_foldl_max t (max a v))
    · exact mem_le_foldl_max t (max a b) h

lemma foldl_max_attained {α : Type} [LinearOrder α] (l : List α) (a : α) :
    l.foldl max a = a ∨ l.foldl max a ∈ l := by
  induction l generalizing a with
  | nil => exact Or.inl rfl
  | cons b t ih =>
    rcases ih (max a b) with h | h
    · rcases max_choice a b with hm | hm
      · exact Or.inl (by rw [List.foldl_cons, h, hm])
      · exact Or.inr (by rw [List.foldl_cons, h, hm]; exact List.mem_cons_self b t)
    · exact Or.inr (List.mem_cons_of_mem b h)

lemma cbWidth_bound (pairs : List (Handler × Handler)) {p : Handler × Handler}
    (hp : p ∈ pairs) :
    p.1.min_width ≤ cbWidth pairs ∧ p.2.min_width ≤ cbWidth pairs := by
  unfold cbWidth
  constructor
  · exact le_trans
      (mem_le_foldl_max _ 0 (List.mem_map_of_mem (fun q => q.1.min_width) hp))
      (le_foldl_max _ _)
  · exact mem_le_foldl_max _ _ (List.mem_map_of_mem (fun q => q.2.min_width) hp)

lemma Deferred.make_ok {pairs : List (Handler × Handler)} {d : Deferred}
    (h : Deferred.make pairs = .ok d) :
    d.pairs = pairs ∧ d.callback_width = cbWidth pairs ∧
      d.width = cbWidth pairs * 2 + 2 := by
  unfold Deferred.make at h
  by_cases he : pairs.isEmpty
  · rw [if_pos he] at h; cases h
  · rw [if_neg he] at h
    cases h
    exact ⟨rfl, rfl, rfl⟩

lemma runTrace_length (pairs : List (Handler × Handler)) (r : Result) :
    (runTrace pairs r).length = pairs.length := by
  induction pairs generalizing r with
  | nil => rfl
  | cons p rest ih => simp [runTrace, ih]

lemma vertSeg_pixels (s : Screen) (x y : Int) (h : Nat) :
    (vertSeg s x y h).pixels
      = s.pixels ++ (List.range h).map (fun i => ((x, y + (i : Int)), '|')) := by
  induction h with
  | zero => simp [vertSeg]
  | succ n ih =>
    simp [vertSeg, Screen.draw_char, ih, List.range_succ]

lemma le_foldl_max_f {α : Type} (f : α → Int) (l : List α) (a : Int) :
    a ≤ l.foldl (fun m p => max m (f p)) a := by
  induction l generalizing a with
  | nil => exact le_refl a
  | cons b t ih => exact le_trans (le_max_left a (f b)) (ih (max a (f b)))

lemma mem_le_foldl_max_f {α : Type} (f : α → Int) :
    ∀ (l : List α) (a : Int) {v : α}, v ∈ l → f v ≤ l.foldl (fun m p => max m (f p)) a
  | b :: t, a, v, hv => by
    rw [List.foldl_cons]
    rcases List.mem_cons.mp hv with h | h
    · subst h
      exact le_trans (le_max_right a (f v)) (le_foldl_max_f f t (max a (f v)))
    · exact mem_le_foldl_max_f f t (max a (f b)) h

lemma foldl_max_f_attained {α : Type} (f : α → Int) (l : List α) (a : Int) :
    l.foldl (fun m p => max m (f p)) a = a
      ∨ ∃ v ∈ l, l.foldl (fun m p => max m (f p)) a = f v := by
  induction l generalizing a with
  | nil => exact Or.inl rfl
  | cons b t ih =>
    rw [List.foldl_cons]
    rcases ih (max a (f b)) with h | h
    · rcases max_choice a (f b) with hm | hm
      · exact Or.inl (h.trans hm)
      · exact Or.inr ⟨b, List.mem_cons_self b t, h.trans hm⟩
    · obtain ⟨v, hv, he⟩ := h
      exact Or.inr ⟨v, List.mem_cons_of_mem b hv, he⟩

lemma Screen.widthI_nonneg (s : Screen) : 0 ≤ s.widthI :=
  le_foldl_max_f (fun (p : (Int × Int) × Char) => p.1.1 + 1) s.pixels 0

lemma Screen.heightI_nonneg (s : Screen) : 0 ≤ s.heightI :=
  le_foldl_max_f (fun (p : (Int × Int) × Char) => p.1.2 + 1) s.pixels 0

lemma Screen.widthI_draw_char (s : Screen) (x y : Int) (c : Char) :
    (s.draw_char x y c).widthI = max s.widthI (x + 1) := by
  simp [Screen.widthI, Screen.draw_char, List.foldl_append]

lemma Screen.heightI_draw_char (s : Screen) (x y : Int) (c : Char) :
    (s.draw_char x y c).heightI = max s.heightI (y + 1) := by
  simp [Screen.heightI, Screen.draw_char, List.foldl_append]

lemma Screen.get_draw_char_same (s : Screen) (x y : Int) (c : Char) :
    (s.draw_char x y c).get x y = some c := by
  simp [Screen.get, Screen.draw_char]

lemma Screen.get_draw_char_other (s : Screen) {x y x' y' : Int} (c : Char)
    (h : (x, y) ≠ (x', y')) :
    (s.draw_char x y c).get x' y' = s.get x' y' := by
  simp only [Screen.get, Screen.draw_char, List.reverse_append, List.reverse_cons,
    List.reverse_nil, List.nil_append, List.cons_append, List.find?]
  rw [show (((x, y), c).1 == (x', y')) = false from beq_eq_false_iff_ne.mpr h]

lemma sum_map_constant {α : Type} (l : List α) (c : Nat) :
    (l.map (fun _ => c)).sum = l.length * c := by
  induction l with
  | nil => simp
  | cons b t ih => simp [ih, Nat.succ_mul, Nat.add_comm]

/-! ## Write bounds for the two runs

`WB lo hi a b` says screen `b` extends the write log of screen `a` only
with pixels whose x-coordinate lies in `[lo, hi]`. -/

def WB (lo hi : Int) (a b : Screen) : Prop :=
  ∃ ws, b.pixels = a.pixels ++ ws ∧ ∀ q ∈ ws, lo ≤ q.1.1 ∧ q.1.1 ≤ hi

lemma WB.rfl {lo hi : Int} {a : Screen} : WB lo hi a a :=
  ⟨[], by simp, by simp⟩

lemma WB.trans {lo hi : Int} {a b c : Screen} (h1 : WB lo hi a b)
    (h2 : WB lo hi b c) : WB lo hi a c := by
  obtain ⟨w1, e1, b1⟩ := h1
  obtain ⟨w2, e2, b2⟩ := h2
  refine ⟨w1 ++ w2, by rw [e2, e1, List.append_assoc], ?_⟩
  intro q hq
  rcases List.mem_append.mp hq with h | h
  · exact b1 q h
  · exact b2 q h

lemma wb_draw_char {lo hi : Int} (s : Screen) {x : Int} (y : Int) (c : Char)
    (h1 : lo ≤ x) (h2 : x ≤ hi) : WB lo hi s (s.draw_char x y c) :=
  ⟨[((x, y), c)], Eq.refl _, by simp [h1, h2]⟩

lemma wb_horiz {lo hi : Int} (s : Screen) {x : Int} (y : Int) (w : Nat)
    (h1 : lo ≤ x) (h2 : x + w ≤ hi + 1) : WB lo hi s (s.draw_horiz_line x y w) := by
  induction w with
  | zero => exact WB.rfl
  | succ n ih =>
    refine WB.trans (ih (by push_cast at h2 ⊢; omega)) ?_
    exact wb_draw_char _ y '-' (by omega) (by push_cast at h2; omega)

lemma wb_vertSeg {lo hi : Int} (s : Screen) {x : Int} (y : Int) (n : Nat)
    (h1 : lo ≤ x) (h2 : x ≤ hi) : WB lo hi s (vertSeg s x y n) := by
  induction n with
  | zero => exact WB.rfl
  | succ m ih => exact WB.trans ih (wb_draw_char _ _ '|' h1 h2)

lemma wb_vert_false {lo hi : Int} (s : Screen) {x : Int} (y : Int) (n : Nat)
    (h1 : lo ≤ x) (h2 : x ≤ hi) : WB lo hi s (s.draw_vert_line x y n false) :=
  wb_vertSeg s y n h1 h2

lemma wb_vert_true {lo hi : Int} (s : Screen) {x : Int} (y : Int) (n : Nat)
    (h1 : lo ≤ x - 1) (h2 : x + 1 ≤ hi) : WB lo hi s (s.draw_vert_line x y n true) := by
  show WB lo hi s
      (((vertSeg s x y n).draw_char (x - 1) (y + (n : Int) - 1) '\\').draw_char
        (x + 1) (y + (n : Int) - 1) '/')
  exact WB.trans (wb_vertSeg s y n (by omega) (by omega))
    (WB.trans (wb_draw_char _ _ '\\' h1 (by omega)) (wb_draw_char _ _ '/' (by omega) h2))

lemma wb_drawTextList {lo hi : Int} :
    ∀ (t : List Char) (s : Screen) (x y : Int), lo ≤ x → x + t.length ≤ hi + 1 →
      WB lo hi s (drawTextList s x y t)
  | [], _, _, _, _, _ => WB.rfl
  | c :: cs, s, x, y, h1, h2 => by
    have h2' : x + (cs.length : Int) + 1 ≤ hi + 1 := by
      rw [List.length_cons] at h2
      push_cast at h2 ⊢
      omega
    exact WB.trans (wb_draw_char s y c h1 (by omega))
      (wb_drawTextList cs _ (x + 1) y (by omega) (by omega))

lemma wb_text {lo hi : Int} (s : Screen) {x : Int} (y : Int) (t : String)
    (h1 : lo ≤ x) (h2 : x + t.length ≤ hi + 1) : WB lo hi s (s.draw_text x y t) :=
  wb_drawTextList t.data s x y h1 h2

lemma string_mk_length (l : List Char) : (String.mk l).length = l.length := rfl

lemma pyCenter_length (t : String) (w : Nat) :
    (pyCenter t w).length = max t.length w := by
  unfold pyCenter
  split
  · next h => exact (max_eq_left h).symm
  · next h =>
    have hb : (w - t.length) &&& w &&& 1 ≤ 1 := Nat.and_le_right
    simp only [String.length_append, string_mk_length, List.length_replicate]
    omega

lemma len_return : ("return " : String).length = 7 := rfl

lemma len_failstr : ("fail " : String).length = 5 := rfl

lemma len_passthru : ("passthru" : String).length = 8 := rfl

lemma min_width_ret (v : String) : (Handler.ret v).min_width = 11 + v.length := by
  show ("return " ++ v).length + 4 = 11 + v.length
  rw [String.length_append, len_return]
  omega

lemma min_width_failh (v : String) : (Handler.fail v).min_width = 9 + v.length := by
  show ("fail " ++ v).length + 4 = 9 + v.length
  rw [String.length_append, len_failstr]
  omega

lemma min_width_ge_9 (h : Handler) : 9 ≤ h.min_width := by
  cases h with
  | ret v => rw [min_width_ret]; omega
  | fail v => rw [min_width_failh]; omega
  | passthru =>
    show 9 ≤ ("passthru" : String).length + 4
    rw [len_passthru]
    omega

/-- For a non-empty chain, `callback_width` is attained by some handler's
`min_width`: the two-stage fold of `Deferred.__init__` realises the maximum
over all callbacks and errbacks, never a strictly larger value. -/
lemma cbWidth_attained (pairs : List (Handler × Handler)) (hne : pairs ≠ []) :
    ∃ q, q ∈ pairs ∧
      (cbWidth pairs = q.1.min_width ∨ cbWidth pairs = q.2.min_width) := by
  show ∃ q, q ∈ pairs ∧
    ((pairs.map (fun r => r.2.min_width)).foldl max
        ((pairs.map (fun r => r.1.min_width)).foldl max 0) = q.1.min_width
      ∨ (pairs.map (fun r => r.2.min_width)).foldl max
        ((pairs.map (fun r => r.1.min_width)).foldl max 0) = q.2.min_width)
  rcases foldl_max_attained (pairs.map (fun r => r.2.min_width))
      ((pairs.map (fun r => r.1.min_width)).foldl max 0) with h2 | h2
  · rw [h2]
    rcases foldl_max_attained (pairs.map (fun r => r.1.min_width)) 0 with h1 | h1
    · exfalso
      obtain ⟨p, hp⟩ := List.exists_mem_of_ne_nil pairs hne
      have hle : p.1.min_width ≤ (pairs.map (fun r => r.1.min_width)).foldl max 0 :=
        mem_le_foldl_max _ 0 (List.mem_map_of_mem (fun r => r.1.min_width) hp)
      have h9 := min_width_ge_9 p.1
      omega
    · obtain ⟨q, hq, hqe⟩ := List.mem_map.mp h1
      exact ⟨q, hq, Or.inl hqe.symm⟩
  · obtain ⟨q, hq, hqe⟩ := List.mem_map.mp h2
    exact ⟨q, hq, Or.inr hqe.symm⟩

/-- Invariant on the value flowing through a run whose chain has
`callback_width = cw`: the rendered text always fits the centering width,
because `cw` accounts for the `min_width` of every handler that could have
produced the value (or the value is the initial `"initial"`). -/
def ResOK (cw : Nat) : Result → Prop
  | .success v => v.length ≤ cw
  | .failure m => m.length + 11 ≤ cw + 20

lemma resOK_step (cw : Nat) (p : Handler × Handler) (r : Result)
    (hp1 : p.1.min_width ≤ cw) (hp2 : p.2.min_width ≤ cw) (hr : ResOK cw r) :
    ResOK cw (toResult ((selectHandler p r).call (pyOf r))) := by
  obtain ⟨a, b⟩ := p
  cases r with
  | success v =>
    show ResOK cw (toResult (a.call (.str v)))
    cases a with
    | ret u =>
      show u.length ≤ cw
      rw [min_width_ret] at hp1
      omega
    | fail u =>
      show u.length + 11 ≤ cw + 20
      rw [min_width_failh] at hp1
      omega
    | passthru => exact hr
  | failure m =>
    show ResOK cw (toResult (b.call (.failObj m)))
    cases b with
    | ret u =>
      show u.length ≤ cw
      rw [min_width_ret] at hp2
      omega
    | fail u =>
      show u.length + 11 ≤ cw + 20
      rw [min_width_failh] at hp2
      omega
    | passthru => exact hr

lemma wb_drawBox {lo hi : Int} (h : Handler) (s : Screen) {x : Int} (y : Int) (w : Nat)
    (hmw : h.min_width ≤ w) (h1 : lo ≤ x) (h2 : x + w ≤ hi + 1) :
    WB lo hi s (h.drawBox s x y w) := by
  have hrepr : h.reprStr.length + 4 ≤ w := hmw
  have hlen : (pyCenter h.reprStr (w - 2)).length = w - 2 := by
    rw [pyCenter_length]; omega
  show WB lo hi s
      (((((s.draw_horiz_line x y w).draw_horiz_line x (y + 4) w).draw_vert_line
          x (y + 1) 3 false).draw_vert_line (x + w - 1) (y + 1) 3 false).draw_text
        (x + 1) (y + 2) (pyCenter h.reprStr (w - 2)))
  refine WB.trans (wb_horiz s y w h1 h2) (WB.trans (wb_horiz _ (y + 4) w h1 h2)
    (WB.trans (wb_vert_false _ (y + 1) 3 h1 (by omega))
      (WB.trans (wb_vert_false _ (y + 1) 3 (by omega) (by omega))
        (wb_text _ (y + 2) _ (by omega) ?_))))
  rw [hlen]
  omega

lemma wb_drawValue (cw : Nat) (x0 : Int) (s : Screen) (r : Result) (y : Int)
    (hcw : 9 ≤ cw) (hr : ResOK cw r) :
    WB x0 (x0 + 2 * cw + 11) s (drawValue ⟨cw, x0⟩ s r y) := by
  cases r with
  | success v =>
    have hv : v.length ≤ cw := hr
    have hlen : (pyCenter v cw).length = cw := by
      rw [pyCenter_length]; omega
    show WB x0 (x0 + 2 * cw + 11) s (s.draw_text x0 y (pyCenter v cw))
    exact wb_text s y _ le_rfl (by rw [hlen]; omega)
  | failure m =>
    have hm : m.length + 11 ≤ cw + 20 := hr
    have htext : ("Exception(" ++ m ++ ")").length = 11 + m.length := by
      rw [String.length_append, String.length_append]
      rw [show ("Exception(" : String).length = 10 from rfl,
        show (")" : String).length = 1 from rfl]
      omega
    have hlen : (pyCenter ("Exception(" ++ m ++ ")") (cw + 20)).length = cw + 20 := by
      rw [pyCenter_length, htext]; omega
    show WB x0 (x0 + 2 * cw + 11) s
      (s.draw_text (x0 + (cw : Int) + 2 - 10) y (pyCenter ("Exception(" ++ m ++ ")") (cw + 20)))
    exact wb_text s y _ (by omega) (by rw [hlen]; push_cast; omega)

lemma wb_drawConnection (cw : Nat) (x0 : Int) (s : Screen) (lx ly col : Int)
    (hcw : 9 ≤ cw) (hcol : col = x0 ∨ col = x0 + cw + 2) :
    WB x0 (x0 + 2 * cw + 11) s (drawConnection ⟨cw, x0⟩ s lx ly col) := by
  unfold drawConnection
  simp only [DrawCfg.callback_mid, DrawCfg.errback_mid, DrawCfg.errback_left]
  split
  · exact wb_vert_true s _ 3 (by rcases hcol with h | h <;> subst h <;> omega)
      (by rcases hcol with h | h <;> subst h <;> omega)
  · split
    · refine WB.trans (wb_vert_false s _ 2 (by omega) (by omega))
        (WB.trans (wb_vert_true _ _ 2 (by omega) (by omega))
          (wb_horiz _ _ _ (by omega) (by push_cast; omega)))
    · refine WB.trans (wb_vert_false s _ 2 (by omega) (by omega))
        (WB.trans (wb_vert_true _ _ 2 (by omega) (by omega))
          (wb_horiz _ _ _ (by omega) (by push_cast; omega)))

lemma wb_runStep (cw : Nat) (x0 : Int) (st : RunState) (p : Handler × Handler)
    (hcw : 9 ≤ cw) (hp1 : p.1.min_width ≤ cw) (hp2 : p.2.min_width ≤ cw) :
    WB x0 (x0 + 2 * cw + 11) st.screen (runStep ⟨cw, x0⟩ st p).screen := by
  show WB x0 (x0 + 2 * cw + 11) st.screen
    (drawConnection ⟨cw, x0⟩
      ((selectHandler p st.res).drawBox st.screen
        (if st.res.isFailure then DrawCfg.errback_left ⟨cw, x0⟩ else x0) st.last_y cw)
      st.last_x st.last_y
      (if st.res.isFailure then DrawCfg.errback_left ⟨cw, x0⟩ else x0))
  by_cases hb : st.res.isFailure = true
  · rw [if_pos hb]
    have hsel : selectHandler p st.res = p.2 := by simp [selectHandler, hb]
    rw [hsel]
    refine WB.trans
      (wb_drawBox p.2 st.screen st.last_y cw hp2 (by simp [DrawCfg.errback_left]; omega)
        (by simp [DrawCfg.errback_left]; omega))
      (wb_drawConnection cw x0 _ st.last_x st.last_y _ hcw
        (Or.inr (by simp [DrawCfg.errback_left])))
  · rw [if_neg hb]
    have hsel : selectHandler p st.res = p.1 := by simp [selectHandler, hb]
    rw [hsel]
    refine WB.trans
      (wb_drawBox p.1 st.screen st.last_y cw hp1 le_rfl (by omega))
      (wb_drawConnection cw x0 _ st.last_x st.last_y _ hcw (Or.inl rfl))

lemma wb_runLoop (cw : Nat) (x0 : Int) (hcw : 9 ≤ cw) :
    ∀ (pairs : List (Handler × Handler)) (st : RunState),
      (∀ p ∈ pairs, p.1.min_width ≤ cw ∧ p.2.min_width ≤ cw) →
      ResOK cw st.res →
      WB x0 (x0 + 2 * cw + 11) st.screen (pairs.foldl (runStep ⟨cw, x0⟩) st).screen
        ∧ ResOK cw (pairs.foldl (runStep ⟨cw, x0⟩) st).res
  | [], _, _, hres => ⟨WB.rfl, hres⟩
  | p :: rest, st, hp, hres => by
    rw [List.foldl_cons]
    have h1 := (hp p (List.mem_cons_self p rest)).1
    have h2 := (hp p (List.mem_cons_self p rest)).2
    have hres' : ResOK cw (runStep ⟨cw, x0⟩ st p).res :=
      resOK_step cw p st.res h1 h2 hres
    obtain ⟨hw, hr⟩ := wb_runLoop cw x0 hcw rest (runStep ⟨cw, x0⟩ st p)
      (fun q hq => hp q (List.mem_cons_of_mem p hq)) hres'
    exact ⟨WB.trans (wb_runStep cw x0 st p hcw h1 h2) hw, hr⟩

lemma wb_runFired (cw : Nat) (x0 : Int) (s : Screen) (y : Int)
    (pairs : List (Handler × Handler)) (start : Result) (hcw : 9 ≤ cw)
    (hp : ∀ p ∈ pairs, p.1.min_width ≤ cw ∧ p.2.min_width ≤ cw)
    (hstart : ResOK cw start) :
    WB x0 (x0 + 2 * cw + 11) s (runFired ⟨cw, x0⟩ s y pairs start) := by
  have hloop := wb_runLoop cw x0 hcw pairs
    ⟨drawValue ⟨cw, x0⟩ s start y,
      if start.isFailure then DrawCfg.errback_left ⟨cw, x0⟩ else x0, y + 4, start⟩
    hp hstart
  refine WB.trans (wb_drawValue cw x0 s start y hcw hstart)
    (WB.trans hloop.1
      (WB.trans (wb_drawValue cw x0 _ _ _ hcw hloop.2)
        (wb_drawConnection cw x0 _ _ _ _ hcw ?_)))
  by_cases hb : (pairs.foldl (runStep ⟨cw, x0⟩)
      ⟨drawValue ⟨cw, x0⟩ s start y,
        if start.isFailure then DrawCfg.errback_left ⟨cw, x0⟩ else x0,
        y + 4, start⟩).res.isFailure = true
  · rw [if_pos hb]
    exact Or.inr (by simp [DrawCfg.errback_left])
  · rw [if_neg hb]
    exact Or.inl rfl

/-- C2: `Callback.__call__` semantics — `return v` yields the plain value
`v` for any input, `fail v` raises a failure wrapping `v`, and `passthru`
returns its input unchanged, failure or not. -/
theorem handler_apply_semantics :
    (∀ (v : String) (x : PyRes), Handler.call (.ret v) x = .ok (.str v))
    ∧ (∀ (v : String) (x : PyRes), Handler.call (.fail v) x = .error v)
    ∧ (∀ x : PyRes, Handler.call .passthru x = .ok x) :=
  ⟨fun _ _ => rfl, fun _ _ => rfl, fun _ => rfl⟩

/-- C1: at every stage the fired handler is the one matching the current
track; a raised failure moves the track to Failure with that failure as
payload, a plain return moves it to Success with that value, `passthru`
leaves track and payload unchanged.  For the chain
`[(passthru, passthru), (return x, fail y)]` started as Failure `"e0"`, the
trace fires the two failure-handlers with payloads `"e0"` then `"y"`, and
the final rendered value is `Exception(y)`. -/
theorem chain_stage_transitions :
    (∀ (p : Handler × Handler) (r : Result),
        (fireStep p r).1 = if r.isFailure then p.2 else p.1)
    ∧ (∀ (p : Handler × Handler) (r : Result),
        (fireStep p r).2 = match selectHandler p r with
          | .ret v => .success v
          | .fail v => .failure v
          | .passthru => r)
    ∧ runTrace [(Handler.passthru, Handler.passthru),
          (Handler.ret "x", Handler.fail "y")] (.failure "e0")
        = [(Handler.passthru, .failure "e0"), (Handler.fail "y", .failure "y")]
    ∧ valueText (runChain [(Handler.passthru, Handler.passthru),
          (Handler.ret "x", Handler.fail "y")] (.failure "e0")) = "Exception(y)" := by
  refine ⟨fun p r => ?_, fun p r => ?_, rfl, rfl⟩
  · cases r <;> rfl
  · obtain ⟨a, b⟩ := p
    cases r with
    | success s => cases a <;> rfl
    | failure m => cases b <;> rfl

/-- C3: a run fires exactly one handler per pair, in chain order, so the
trace length equals the number of pairs for either starting track. -/
theorem run_length_eq_pairs (pairs : List (Handler × Handler)) (r : Result)
    (_h : pairs ≠ []) : (runTrace pairs r).length = pairs.length :=
  runTrace_length pairs r

theorem run_length_eq_pairs_witness :
    [(Handler.passthru, Handler.passthru)] ≠ ([] : List (Handler × Handler))
    ∧ (runTrace [(Handler.passthru, Handler.passthru)] (.success "v")).length
        = [(Handler.passthru, Handler.passthru)].length :=
  ⟨by decide, run_length_eq_pairs [(Handler.passthru, Handler.passthru)]
    (.success "v") (by decide)⟩

/-- C4: building the deferred from an empty pair list fails (the spec's
`InvalidChain`, the source's `assert pairs`); any non-empty list succeeds
and the pairs are stored in order. -/
theorem chain_construction (pairs : List (Handler × Handler)) (h : pairs ≠ []) :
    Deferred.make [] = .error .invalidChain
    ∧ ∃ d, Deferred.make pairs = .ok d ∧ d.pairs = pairs := by
  refine ⟨rfl, ?_⟩
  have he : pairs.isEmpty = false := by
    cases pairs with
    | nil => exact absurd rfl h
    | cons a t => rfl
  exact ⟨_, by rw [Deferred.make, he]; rfl, rfl⟩

theorem chain_construction_witness :
    [(Handler.ret "ok", Handler.passthru)] ≠ ([] : List (Handler × Handler))
    ∧ (Deferred.make [] = .error .invalidChain
       ∧ ∃ d, Deferred.make [(Handler.ret "ok", Handler.passthru)] = .ok d
           ∧ d.pairs = [(Handler.ret "ok", Handler.passthru)]) :=
  ⟨by decide, chain_construction [(Handler.ret "ok", Handler.passthru)] (by decide)⟩

/-- C9: every handler's `min_width` is the length of its display label plus
4, and the deferred's `callback_width` equals the maximum `min_width` over
all success- and failure-handlers of the chain: it is an upper bound for
every handler and is attained by some handler, so it is never smaller than
any constituent handler's `min_width`. -/
theorem min_width_invariant (pairs : List (Handler × Handler)) (d : Deferred)
    (hd : Deferred.make pairs = .ok d) (p : Handler × Handler) (hp : p ∈ pairs) :
    (∀ h : Handler, h.min_width = h.reprStr.length + 4)
    ∧ (p.1.min_width ≤ d.callback_width ∧ p.2.min_width ≤ d.callback_width)
    ∧ ∃ q, q ∈ pairs ∧
        (d.callback_width = q.1.min_width ∨ d.callback_width = q.2.min_width) := by
  obtain ⟨-, hcw, -⟩ := Deferred.make_ok hd
  refine ⟨fun _ => rfl,
    ⟨hcw ▸ (cbWidth_bound pairs hp).1, hcw ▸ (cbWidth_bound pairs hp).2⟩, ?_⟩
  rw [hcw]
  exact cbWidth_attained pairs (List.ne_nil_of_mem hp)

theorem min_width_invariant_witness :
    Deferred.make [(Handler.ret "ok", Handler.passthru)]
        = .ok ⟨[(Handler.ret "ok", Handler.passthru)], 13, 28, 5⟩
    ∧ ((∀ h : Handler, h.min_width = h.reprStr.length + 4)
       ∧ ((Handler.ret "ok").min_width ≤ 13 ∧ Handler.passthru.min_width ≤ 13)
       ∧ ∃ q, q ∈ [(Handler.ret "ok", Handler.passthru)] ∧
           (13 = q.1.min_width ∨ 13 = q.2.min_width)) :=
  ⟨rfl, min_width_invariant [(Handler.ret "ok", Handler.passthru)]
    ⟨[(Handler.ret "ok", Handler.passthru)], 13, 28, 5⟩ rfl
    (Handler.ret "ok", Handler.passthru) (by decide)⟩

/-- C10: `draw_vert_line` with `end_arrow` writes its `'|'` segment and then
always the arrow pair `'\'` at `(x-1, y+height-1)` and `'/'` at
`(x+1, y+height-1)`; with height 0 it writes no `'|'` at all yet still puts
the arrows one row above the starting row. -/
theorem vert_line_zero_height_arrow :
    (∀ (s : Screen) (x y : Int),
        (s.draw_vert_line x y 0 true).pixels
          = s.pixels ++ [((x - 1, y - 1), '\\'), ((x + 1, y - 1), '/')])
    ∧ ∀ (s : Screen) (x y : Int) (h : Nat),
        (s.draw_vert_line x y h true).pixels
          = s.pixels ++ (List.range h).map (fun i => ((x, y + (i : Int)), '|'))
              ++ [((x - 1, y + (h : Int) - 1), '\\'), ((x + 1, y + (h : Int) - 1), '/')] := by
  constructor
  · intro s x y
    simp [Screen.draw_vert_line, vertSeg, Screen.draw_char]
  · intro s x y h
    simp [Screen.draw_vert_line, vertSeg_pixels, Screen.draw_char]

/-- C6: the whole pipeline is a deterministic function of the chain — equal
inputs give byte-identical rendered output. -/
theorem simulate_deterministic (p q : List (Handler × Handler)) (h : p = q) :
    simulate p = simulate q := by rw [h]

theorem simulate_deterministic_witness :
    simulate [(Handler.ret "ok", Handler.passthru)]
      = simulate [(Handler.ret "ok", Handler.passthru)] :=
  simulate_deterministic [(Handler.ret "ok", Handler.passthru)]
    [(Handler.ret "ok", Handler.passthru)] rfl

/-- C5 counterexample: a pixel at negative x is not excluded from the
reported height — drawing `'a'` at `(-1, 3)` on an empty screen raises the
reported height from 0 to 4, so such a pixel is not excluded from both
reported dimensions. -/
theorem negative_pixel_counterexample :
    (Screen.empty.draw_char (-1) 3 'a').heightI = 4
    ∧ ¬ ((Screen.empty.draw_char (-1) 3 'a').heightI = Screen.empty.heightI) := by
  refine ⟨rfl, ?_⟩
  intro h
  simp [Screen.empty, Screen.draw_char, Screen.heightI] at h

/-- C5 amended: drawing accepts every integer coordinate; a character at
negative x or negative y is stored in the pixel mapping and is never read
by any visible render cell, and the negative coordinate is excluded from
the corresponding dimension — negative x never extends the reported width
and negative y never extends the reported height (though the other,
non-negative coordinate still counts toward its dimension). -/
theorem negative_pixel_amended (s : Screen) (x y : Int) (c : Char) (x' y' : Nat)
    (h : x < 0 ∨ y < 0) :
    (s.draw_char x y c).get x y = some c
    ∧ (s.draw_char x y c).cell x' y' = s.cell x' y'
    ∧ (x < 0 → (s.draw_char x y c).widthI = s.widthI)
    ∧ (y < 0 → (s.draw_char x y c).heightI = s.heightI) := by
  refine ⟨Screen.get_draw_char_same s x y c, ?_, ?_, ?_⟩
  · have hne : (x, y) ≠ ((x' : Int), (y' : Int)) := by
      intro he
      have h1 : x = (x' : Int) := congrArg Prod.fst he
      have h2 : y = (y' : Int) := congrArg Prod.snd he
      rcases h with h | h <;> omega
    simp [Screen.cell, Screen.get_draw_char_other s c hne]
  · intro hx
    rw [Screen.widthI_draw_char, max_eq_left (le_trans (by omega) s.widthI_nonneg)]
  · intro hy
    rw [Screen.heightI_draw_char, max_eq_left (le_trans (by omega) s.heightI_nonneg)]

theorem negative_pixel_amended_witness :
    (Screen.empty.draw_char (-1) (-2) 'a').get (-1) (-2) = some 'a'
    ∧ (Screen.empty.draw_char (-1) (-2) 'a').cell 0 0 = Screen.empty.cell 0 0
    ∧ (Screen.empty.draw_char (-1) (-2) 'a').widthI = Screen.empty.widthI
    ∧ (Screen.empty.draw_char (-1) (-2) 'a').heightI = Screen.empty.heightI :=
  have t := negative_pixel_amended Screen.empty (-1) (-2) 'a' 0 0 (Or.inl (by decide))
  ⟨t.1, t.2.1, t.2.2.1 (by decide), t.2.2.2 (by decide)⟩

/-- C7: the pixels written by `main`'s success-start run (at x = 0) and by
its failure-start run (at x = width + 12) are disjoint: every write of the
first run has x ≤ 2·callback_width + 11 while every write of the second has
x ≥ 2·callback_width + 14. -/
theorem runs_disjoint (pairs : List (Handler × Handler)) (d : Deferred)
    (hd : Deferred.make pairs = .ok d) :
    List.Disjoint (run1Keys d) (run2Keys d) := by
  obtain ⟨hps, hcw, hwd⟩ := Deferred.make_ok hd
  have hne : pairs ≠ [] := by
    intro h
    subst h
    simp [Deferred.make] at hd
  obtain ⟨p, hp⟩ := List.exists_mem_of_ne_nil pairs hne
  have h9 : 9 ≤ d.callback_width :=
    hcw ▸ le_trans (min_width_ge_9 p.1) (cbWidth_bound pairs hp).1
  have hbound : ∀ q ∈ d.pairs,
      q.1.min_width ≤ d.callback_width ∧ q.2.min_width ≤ d.callback_width := by
    rw [hps, hcw]
    exact fun q hq => cbWidth_bound pairs hq
  have w1 : WB 0 (0 + 2 * d.callback_width + 11) Screen.empty (screenAfterFirst d) :=
    wb_runFired d.callback_width 0 Screen.empty 0 d.pairs (.success "initial") h9 hbound
      (show ("initial" : String).length ≤ d.callback_width by
        rw [show ("initial" : String).length = 7 from rfl]; omega)
  have w2 : WB ((d.width : Int) + 12)
      ((d.width : Int) + 12 + 2 * d.callback_width + 11)
      (screenAfterFirst d) (screenAfterBoth d) :=
    wb_runFired d.callback_width ((d.width : Int) + 12) (screenAfterFirst d) 0 d.pairs
      (.failure "initial") h9 hbound
      (show ("initial" : String).length + 11 ≤ d.callback_width + 20 by
        rw [show ("initial" : String).length = 7 from rfl]; omega)
  obtain ⟨ws1, e1, b1⟩ := w1
  obtain ⟨ws2, e2, b2⟩ := w2
  rw [show Screen.empty.pixels = [] from rfl, List.nil_append] at e1
  intro a h1 h2
  have hkeys : run2Keys d = ws2.map Prod.fst := by
    show ((screenAfterBoth d).pixels.drop (screenAfterFirst d).pixels.length).map Prod.fst
        = ws2.map Prod.fst
    rw [e2, List.drop_left]
  rw [hkeys] at h2
  obtain ⟨q1, hq1m, hq1e⟩ := List.mem_map.mp h1
  obtain ⟨q2, hq2m, hq2e⟩ := List.mem_map.mp h2
  rw [e1] at hq1m
  have hb1 := b1 q1 hq1m
  have hb2 := b2 q2 hq2m
  have he : q1.1.1 = q2.1.1 := by rw [hq1e, hq2e]
  rw [hwd, hcw] at *
  push_cast at hb1 hb2
  omega

theorem runs_disjoint_witness :
    Deferred.make [(Handler.passthru, Handler.passthru)]
        = .ok ⟨[(Handler.passthru, Handler.passthru)], 12, 26, 5⟩
    ∧ List.Disjoint
        (run1Keys ⟨[(Handler.passthru, Handler.passthru)], 12, 26, 5⟩)
        (run2Keys ⟨[(Handler.passthru, Handler.passthru)], 12, 26, 5⟩) :=
  ⟨rfl, runs_disjoint [(Handler.passthru, Handler.passthru)]
    ⟨[(Handler.passthru, Handler.passthru)], 12, 26, 5⟩ rfl⟩

/-- C8: `Screen.__str__` renders exactly `height` rows of exactly `width`
characters, each row terminated by a newline with nothing after the last
one; width and height are the maximal set x- resp. y-coordinate plus 1
(0 when no pixel is set), unset cells render as a space, and the empty
screen renders as the empty string. -/
theorem render_format (s : Screen) :
    s.str.length = s.heightI.toNat * (s.widthI.toNat + 1)
    ∧ (∀ y : Nat, (s.rowChars y).length = s.widthI.toNat)
    ∧ s.str.data
        = ((List.range s.heightI.toNat).map (fun y => s.rowChars y ++ ['\n'])).flatten
    ∧ (∀ x y : Nat, s.get x y = none → s.cell x y = ' ')
    ∧ (s.pixels = [] → s.str = "")
    ∧ (∀ p ∈ s.pixels, p.1.1 + 1 ≤ s.widthI ∧ p.1.2 + 1 ≤ s.heightI)
    ∧ (s.widthI = 0 ∨ ∃ p ∈ s.pixels, s.widthI = p.1.1 + 1)
    ∧ (s.heightI = 0 ∨ ∃ p ∈ s.pixels, s.heightI = p.1.2 + 1) := by
  refine ⟨?_, fun y => by simp [Screen.rowChars], rfl, ?_, ?_, ?_, ?_, ?_⟩
  · show s.strChars.length = _
    rw [Screen.strChars, List.length_flatten, List.map_map]
    have he : (List.length ∘ fun y => s.rowChars y ++ ['\n'])
        = fun _ => s.widthI.toNat + 1 := by
      funext y
      simp [Screen.rowChars]
    rw [he, sum_map_constant, List.length_range]
  · intro x y h
    simp [Screen.cell, h]
  · obtain ⟨l⟩ := s
    intro h
    cases h
    rfl
  · intro p hp
    exact ⟨mem_le_foldl_max_f (fun q => q.1.1 + 1) s.pixels 0 hp,
      mem_le_foldl_max_f (fun q => q.1.2 + 1) s.pixels 0 hp⟩
  · exact foldl_max_f_attained (fun q => q.1.1 + 1) s.pixels 0
  · exact foldl_max_f_attained (fun q => q.1.2 + 1) s.pixels 0

theorem render_format_witness :
    (Screen.empty.draw_char 1 2 'a').cell 0 0 = ' '
    ∧ Screen.empty.str = ""
    ∧ ((1, 2), 'a').1.1 + 1 ≤ (Screen.empty.draw_char 1 2 'a').widthI
    ∧ ((1, 2), 'a').1.2 + 1 ≤ (Screen.empty.draw_char 1 2 'a').heightI :=
  have t := render_format (Screen.empty.draw_char 1 2 'a')
  have m := t.2.2.2.2.2.1 ((1, 2), 'a') (by decide)
  ⟨t.2.2.2.1 0 0 (by decide), (render_format Screen.empty).2.2.2.2.1 rfl, m.1, m.2⟩
